import Mathlib

/-!
Verification of the audio number-dictation drill: a shallow embedding of the
core of `number_game.py` and of `locales/__init__.py`, with theorems about
place-value decomposition, digit scoring, the error-weighted generator, the
round loop, terminal-mode handling and localization lookup.

Machine integers of the source are Python arbitrary-precision integers; they
are embedded as `Nat` (all quantities in the drill core are non-negative;
the one signed quantity, a parsed guess, is embedded as `Int`).
-/

namespace NumberGame

/-! ### Python dict model

The error-bucket map `errors` is a Python dict keyed by place value.  Python
dicts preserve insertion order: assigning to an existing key updates it in
place, assigning to a fresh key appends it.  We model a dict as an
insertion-ordered association list. -/

abbrev Dict := List (Nat × Nat)

/-- Models `errors.get(k, 0)`. -/
def getCount (d : Dict) (k : Nat) : Nat := (List.lookup k d).getD 0

/-- Models `d[k] = v`: update in place when the key is present, else append. -/
def dictSet (d : Dict) (k v : Nat) : Dict :=
  if (List.lookup k d).isSome then
    d.map (fun kv => if kv.1 = k then (kv.1, v) else kv)
  else
    d ++ [(k, v)]

/-- Models `errors[ev] = errors.get(ev, 0) + 1` (line 371 of `number_game.py`). -/
def dictIncr (d : Dict) (k : Nat) : Dict := dictSet d k (getCount d k + 1)

theorem lookup_map_update_eq (d : Dict) (k v : Nat) :
    List.lookup k (d.map fun kv => if kv.1 = k then (kv.1, v) else kv) =
      (List.lookup k d).map (fun _ => v) := by
  induction d with
  | nil => rfl
  | cons hd tl ih =>
    obtain ⟨k1, v1⟩ := hd
    simp only [List.map_cons]
    by_cases h : k1 = k
    · rw [if_pos h]
      subst h
      simp [List.lookup]
    · rw [if_neg h]
      have hne : (k == k1) = false := by simp [Ne.symm h]
      simp [List.lookup, hne, ih]

theorem lookup_map_update_ne (d : Dict) (k v k2 : Nat) (hne : k2 ≠ k) :
    List.lookup k2 (d.map fun kv => if kv.1 = k then (kv.1, v) else kv) =
      List.lookup k2 d := by
  induction d with
  | nil => rfl
  | cons hd tl ih =>
    obtain ⟨k1, v1⟩ := hd
    simp only [List.map_cons]
    by_cases h : k1 = k
    · rw [if_pos h]
      subst h
      have h2 : (k2 == k1) = false := by simp [hne]
      simp [List.lookup, h2, ih]
    · rw [if_neg h]
      by_cases h3 : k2 = k1
      · subst h3
        simp [List.lookup]
      · have h4 : (k2 == k1) = false := by simp [h3]
        simp [List.lookup, h4, ih]

theorem lookup_append_single (d : Dict) (k v k2 : Nat) :
    List.lookup k2 (d ++ [(k, v)]) =
      match List.lookup k2 d with
      | some w => some w
      | none => if k2 = k then some v else none := by
  induction d with
  | nil =>
    by_cases h : k2 = k
    · subst h
      simp [List.lookup]
    · have h2 : (k2 == k) = false := by simp [h]
      simp [List.lookup, h, h2]
  | cons hd tl ih =>
    obtain ⟨k1, v1⟩ := hd
    by_cases h : k2 = k1
    · subst h
      simp [List.lookup]
    · have h2 : (k2 == k1) = false := by simp [h]
      simp [List.lookup, h2, ih]

/-- The single fact the scoring and decay proofs need about `dictSet`:
it changes the stored count at the assigned key and nothing else. -/
theorem getCount_dictSet (d : Dict) (k v k2 : Nat) :
    getCount (dictSet d k v) k2 = if k2 = k then v else getCount d k2 := by
  unfold dictSet getCount
  cases hx : List.lookup k d with
  | some w =>
    rw [if_pos (by simp : (some w).isSome = true)]
    by_cases h : k2 = k
    · subst h
      rw [lookup_map_update_eq, hx]
      simp
    · rw [lookup_map_update_ne d k v k2 h]
      simp [h]
  | none =>
    rw [if_neg (by simp : ¬((none : Option Nat).isSome = true))]
    rw [lookup_append_single]
    by_cases h : k2 = k
    · subst h
      simp [hx]
    · cases hy : List.lookup k2 d <;> simp [h]

theorem getCount_dictIncr (d : Dict) (k k2 : Nat) :
    getCount (dictIncr d k) k2 = getCount d k2 + (if k2 = k then 1 else 0) := by
  unfold dictIncr
  rw [getCount_dictSet]
  by_cases h : k2 = k
  · subst h; simp
  · simp [h]

/-! ### Decimal digits

Python renders the guess and the target with `str(...)` and compares single
characters; `digitAt n p` is the digit of `n` at decimal position `p` counted
from the least significant end (`int(str(n)[len(str(n)) - 1 - p])`, or 0
beyond the left end — exactly what the `zfill` padding of line 350 produces).
`numDigits n` is `len(str(n))` for a non-negative `n`. -/

def digitAt (n p : Nat) : Nat := n / 10 ^ p % 10

def numDigits (n : Nat) : Nat := (Nat.toDigits 10 n).length

example : numDigits 0 = 1 := by decide
example : numDigits 1847 = 4 := by decide
example : digitAt 1965 2 = 9 := by decide

/-! ### Place-value decomposition (`get_number_components`, lines 139–169)

The Python function mutates `number` in place; the embedding threads each
reassignment through a pair `(components so far, remaining number)`. -/

def get_number_components (number : Nat) : List Nat :=
  let s1 : List Nat × Nat :=
    if number ≥ 1000 then ([number / 1000 * 1000], number % 1000)
    else ([], number)
  let s2 : List Nat × Nat :=
    if s1.2 ≥ 100 then (s1.1 ++ [s1.2 / 100 * 100], s1.2 % 100)
    else s1
  let s3 : List Nat × Nat :=
    if s2.2 ≥ 20 then (s2.1 ++ [s2.2 / 10 * 10], s2.2 % 10)
    else if s2.2 ≥ 11 then (s2.1 ++ [s2.2], 0)
    else s2
  if s3.2 > 0 then s3.1 ++ [s3.2] else s3.1

example : get_number_components 1234 = [1000, 200, 30, 4] := by decide
example : get_number_components 237 = [200, 30, 7] := by decide
example : get_number_components 15 = [15] := by decide
example : get_number_components 115 = [100, 15] := by decide
example : get_number_components 0 = [] := by decide

/-! ### Clip resolver (`get_audio_files_for_number`, lines 68–98)

Returns the list of audio files to play.  Each file is named
`{audio_dir}/{v}.mp3` for an integer `v`; the embedding returns the integer
values `v`, the only varying part of the names.  The filesystem probe
`os.path.exists(exact_file)` for the whole number is the argument
`exact_exists`.  Unlike `get_number_components` this function has no explicit
11–19 branch. -/

def get_audio_files_for_number (number : Nat) (exact_exists : Bool) : List Nat :=
  if exact_exists then [number]
  else
    let s1 : List Nat × Nat :=
      if number ≥ 1000 then ([number / 1000 * 1000], number % 1000)
      else ([], number)
    let s2 : List Nat × Nat :=
      if s1.2 ≥ 100 then (s1.1 ++ [s1.2 / 100 * 100], s1.2 % 100)
      else s1
    let s3 : List Nat × Nat :=
      if s2.2 ≥ 20 then (s2.1 ++ [s2.2 / 10 * 10], s2.2 % 10)
      else s2
    if s3.2 > 0 then s3.1 ++ [s3.2] else s3.1

example : get_audio_files_for_number 134 false = [100, 30, 4] := by decide
example : get_audio_files_for_number 1234 false = [1000, 200, 30, 4] := by decide
example : get_audio_files_for_number 115 false = [100, 15] := by decide
example : get_audio_files_for_number 115 true = [115] := by decide

/-! ### Ground facts about decomposition on the playable range

The game's targets always lie in `[0, 1999]` (`main` clamps `--min`/`--max`
to that range).  The facts below are established by exhaustive evaluation
over that range, in chunks of 500 to keep the kernel recursion shallow. -/

def decompositionFacts (n : Nat) : Prop :=
  (get_number_components n).sum = n ∧
  (0 ∈ get_number_components n → False) ∧
  get_audio_files_for_number n false = get_number_components n ∧
  (get_number_components n).Nodup ∧
  (11 ≤ n % 100 → n % 100 ≤ 19 →
    get_number_components n = get_number_components (n - n % 100) ++ [n % 100])

instance (n : Nat) : Decidable (decompositionFacts n) := by
  unfold decompositionFacts
  infer_instance

set_option maxRecDepth 2000 in
theorem decompositionFacts_chunk0 : ∀ n, n < 500 → decompositionFacts n := by decide

set_option maxRecDepth 2000 in
theorem decompositionFacts_chunk1 : ∀ n, n < 500 → decompositionFacts (500 + n) := by decide

set_option maxRecDepth 2000 in
theorem decompositionFacts_chunk2 : ∀ n, n < 500 → decompositionFacts (1000 + n) := by decide

set_option maxRecDepth 2000 in
theorem decompositionFacts_chunk3 : ∀ n, n < 500 → decompositionFacts (1500 + n) := by decide

theorem decompositionFacts_all (n : Nat) (hn : n < 2000) : decompositionFacts n := by
  by_cases h0 : n < 500
  · exact decompositionFacts_chunk0 n h0
  · by_cases h1 : n < 1000
    · have := decompositionFacts_chunk1 (n - 500) (by omega)
      simpa [Nat.add_sub_cancel' (by omega : 500 ≤ n)] using this
    · by_cases h2 : n < 1500
      · have := decompositionFacts_chunk2 (n - 1000) (by omega)
        simpa [Nat.add_sub_cancel' (by omega : 1000 ≤ n)] using this
      · have := decompositionFacts_chunk3 (n - 1500) (by omega)
        simpa [Nat.add_sub_cancel' (by omega : 1500 ≤ n)] using this

/-! ### Scoring a wrong guess (`main`, lines 343–374)

On a wrong guess the loop walks the characters of `str(guess)` with index `i`
ascending, i.e. the digit positions `pos_from_end = len(guess_str) - 1 - i`
descending; `scoreLoop` recurses over that descending position list.  For each
position it emits one highlight decision (`true` = mismatched, shown in red)
and, on a mismatch, adds the target's digit value `correct_digit * 10 **
pos_from_end` to the error dict when it is non-zero.  The `zfill` padding of
lines 349–351 makes the compared target digit exactly `digitAt target
pos_from_end` (0 beyond the target's left end), and `correct_pos_index` is
never negative because `correct_padded` is at least as long as `guess_str`. -/

def scoreLoop (guess target : Nat) (errors : Dict) : List Nat → List Bool × Dict
  | [] => ([], errors)
  | pos :: rest =>
    let guess_digit := digitAt guess pos
    let correct_digit := digitAt target pos
    if guess_digit ≠ correct_digit then
      let error_value := correct_digit * 10 ^ pos
      let errors2 := if 0 < error_value then dictIncr errors error_value else errors
      let r := scoreLoop guess target errors2 rest
      (true :: r.1, r.2)
    else
      let r := scoreLoop guess target errors rest
      (false :: r.1, r.2)

/-- One wrong-guess scoring pass: highlight decisions in display order
(most significant digit of the guess first) and the updated error dict. -/
def scoreWrongGuess (guess target : Nat) (errors : Dict) : List Bool × Dict :=
  scoreLoop guess target errors ((List.range (numDigits guess)).reverse)

example :
    scoreWrongGuess 1847 1965 [] = ([false, true, true, true], [(900, 1), (60, 1), (5, 1)]) := by
  decide

theorem scoreLoop_fst (guess target : Nat) (errors : Dict) (ps : List Nat) :
    (scoreLoop guess target errors ps).1 =
      ps.map (fun p => decide (digitAt guess p ≠ digitAt target p)) := by
  induction ps generalizing errors with
  | nil => rfl
  | cons p rest ih =>
    by_cases h : digitAt guess p = digitAt target p <;>
      simp [scoreLoop, h, ih]

theorem scoreLoop_cons_snd (guess target : Nat) (errors : Dict) (p : Nat) (rest : List Nat) :
    (scoreLoop guess target errors (p :: rest)).2 =
      (scoreLoop guess target
        (if digitAt guess p ≠ digitAt target p ∧ 0 < digitAt target p * 10 ^ p
         then dictIncr errors (digitAt target p * 10 ^ p) else errors) rest).2 := by
  by_cases h : digitAt guess p = digitAt target p
  · simp [scoreLoop, h]
  · by_cases hev : 0 < digitAt target p * 10 ^ p <;> simp [scoreLoop, h, hev]

theorem scoreLoop_count (guess target : Nat) (ps : List Nat) (errors : Dict)
    (k : Nat) (hk : 0 < k) :
    getCount (scoreLoop guess target errors ps).2 k =
      getCount errors k +
        (ps.filter (fun p =>
          decide (digitAt guess p ≠ digitAt target p) &&
            decide (digitAt target p * 10 ^ p = k))).length := by
  induction ps generalizing errors with
  | nil => simp [scoreLoop]
  | cons p rest ih =>
    rw [scoreLoop_cons_snd, List.filter_cons]
    by_cases h : digitAt guess p ≠ digitAt target p
    · by_cases hkev : digitAt target p * 10 ^ p = k
      · have hev : 0 < digitAt target p * 10 ^ p := by omega
        rw [if_pos ⟨h, hev⟩, ih, getCount_dictIncr]
        have hcond : (decide (digitAt guess p ≠ digitAt target p) &&
            decide (digitAt target p * 10 ^ p = k)) = true := by simp [h, hkev]
        rw [hcond]
        have hk2 : k = digitAt target p * 10 ^ p := hkev.symm
        rw [if_pos hk2, if_pos (rfl : true = true)]
        simp only [List.length_cons]
        omega
      · by_cases hev : 0 < digitAt target p * 10 ^ p
        · rw [if_pos ⟨h, hev⟩, ih, getCount_dictIncr]
          have hk2 : ¬(k = digitAt target p * 10 ^ p) := fun hc => hkev hc.symm
          have hcond : (decide (digitAt guess p ≠ digitAt target p) &&
              decide (digitAt target p * 10 ^ p = k)) = false := by simp [hkev]
          rw [hcond]
          simp [hk2]
        · rw [if_neg (by tauto), ih]
          have hcond : (decide (digitAt guess p ≠ digitAt target p) &&
              decide (digitAt target p * 10 ^ p = k)) = false := by simp [hkev]
          rw [hcond]
          simp
    · rw [if_neg (by tauto), ih]
      have hcond : (decide (digitAt guess p ≠ digitAt target p) &&
          decide (digitAt target p * 10 ^ p = k)) = false := by simp [h]
      rw [hcond]
      simp

theorem scoreLoop_count_zero (guess target : Nat) (ps : List Nat) (errors : Dict) :
    getCount (scoreLoop guess target errors ps).2 0 = getCount errors 0 := by
  induction ps generalizing errors with
  | nil => simp [scoreLoop]
  | cons p rest ih =>
    rw [scoreLoop_cons_snd]
    by_cases hc : digitAt guess p ≠ digitAt target p ∧ 0 < digitAt target p * 10 ^ p
    · rw [if_pos hc, ih, getCount_dictIncr]
      have : ¬((0 : Nat) = digitAt target p * 10 ^ p) := by omega
      simp [this]
    · rw [if_neg hc, ih]

/-! ### First-try decay (`decrement_errors_for_number`, lines 226–234)

`if comp in errors and errors[comp] > 0: errors[comp] -= 1`. -/

def decStep (e : Dict) (comp : Nat) : Dict :=
  match List.lookup comp e with
  | some v => if v > 0 then dictSet e comp (v - 1) else e
  | none => e

def decrement_errors_for_number (number : Nat) (errors : Dict) : Dict :=
  (get_number_components number).foldl decStep errors

theorem getCount_decStep (e : Dict) (c k : Nat) :
    getCount (decStep e c) k =
      if k = c then getCount e c - 1 else getCount e k := by
  unfold decStep
  cases hx : List.lookup c e with
  | some v =>
    dsimp only
    by_cases hv : v > 0
    · rw [if_pos hv, getCount_dictSet]
      by_cases h : k = c
      · simp [h, getCount, hx]
      · simp [h]
    · rw [if_neg hv]
      by_cases h : k = c
      · subst h
        simp [getCount, hx]
        omega
      · simp [h]
  | none =>
    by_cases h : k = c
    · subst h
      simp [getCount, hx]
    · simp [h]

theorem getCount_foldl_decStep (comps : List Nat) (e : Dict) (k : Nat)
    (hnd : comps.Nodup) :
    getCount (comps.foldl decStep e) k =
      if k ∈ comps then getCount e k - 1 else getCount e k := by
  induction comps generalizing e with
  | nil => simp
  | cons c cs ih =>
    simp only [List.foldl_cons]
    obtain ⟨hc, hcs⟩ := List.nodup_cons.mp hnd
    rw [ih _ hcs]
    by_cases h : k = c
    · subst h
      have hknotin : k ∉ cs := hc
      rw [if_neg hknotin, getCount_decStep, if_pos rfl, if_pos (List.mem_cons_self k cs)]
    · rw [getCount_decStep, if_neg h]
      by_cases hin : k ∈ cs
      · rw [if_pos hin, if_pos (List.mem_cons_of_mem c hin)]
      · rw [if_neg hin, if_neg (by simp [h, hin])]

/-! ### Adaptive generator (`generate_number_with_errors`, lines 172–223)

Randomness is embedded as an oracle `RandomDraws` holding one field per draw
site of the source.  Coin fields are the outcomes of the `random.random() < p`
comparisons; `choice` fields are indices into the chosen list (any natural,
reduced mod the list length, so every oracle denotes a draw the `random`
module could return); `randint`-style fields are offsets into the requested
interval, reduced mod its width. -/

structure RandomDraws where
  tCoin : Bool
  tFallCoin : Bool
  tChoice : Nat
  hCoin : Bool
  hChoice : Nat
  hFallCoin : Bool
  hFallChoice : Nat
  teenCoin : Bool
  teenChoice : Nat
  tensCoin : Bool
  tensChoice : Nat
  uCoin : Bool
  uChoice : Nat
  uFallCoin : Bool
  uFallRand : Nat
  mixCoin : Bool
  mixRand : Nat
  emptyRand : Nat
  redrawRand : Nat

/-- `random.randint(a, b)` (inclusive), outcome selected by `x`. -/
def randint (a b x : Nat) : Nat := a + x % (b + 1 - a)

/-- `random.choice(l)` for non-empty `l`, outcome selected by `x`. -/
def choice (l : List Nat) (x : Nat) : Nat := l.getD (x % l.length) 0

/-- `positive_errors = {k: v for k, v in errors.items() if v > 0}` (keys, in
dict iteration order). -/
def positiveErrorKeys (errors : Dict) : List Nat :=
  (errors.filter (fun kv => 0 < kv.2)).map Prod.fst

/-- The weighted composition of lines 183–217 (only reached when some bucket
is positive). -/
def composeFromErrors (positive : List Nat) (r : RandomDraws) : Nat :=
  let thousands := positive.filter (fun k => decide (k = 1000))
  let hundreds := positive.filter (fun k => decide (100 ≤ k ∧ k ≤ 900 ∧ k % 100 = 0))
  let tens := positive.filter (fun k => decide (20 ≤ k ∧ k ≤ 90 ∧ k % 10 = 0))
  let teens := positive.filter (fun k => decide (11 ≤ k ∧ k ≤ 19))
  let units := positive.filter (fun k => decide (1 ≤ k ∧ k ≤ 9))
  let result : Nat := 0
  let result :=
    if !thousands.isEmpty && r.tCoin then result + choice thousands r.tChoice
    else if r.tFallCoin then result + 1000
    else result
  let result :=
    if !hundreds.isEmpty && r.hCoin then result + choice hundreds r.hChoice
    else if r.hFallCoin then
      result + choice [100, 200, 300, 400, 500, 600, 700, 800, 900] r.hFallChoice
    else result
  let result :=
    if !teens.isEmpty && r.teenCoin then result + choice teens r.teenChoice
    else if !tens.isEmpty && r.tensCoin then
      let result := result + choice tens r.tensChoice
      if !units.isEmpty && r.uCoin then result + choice units r.uChoice
      else if r.uFallCoin then result + randint 1 9 r.uFallRand
      else result
    else if r.mixCoin then result + randint 1 99 r.mixRand
    else result
  result

def generate_number_with_errors (errors : Dict) (min_val max_val : Nat)
    (r : RandomDraws) : Nat :=
  let positive_errors := positiveErrorKeys errors
  if positive_errors.isEmpty then
    randint (Nat.max min_val 0) max_val r.emptyRand
  else
    let result := composeFromErrors positive_errors r
    if result = 0 ∨ result < min_val ∨ result > max_val then
      randint (Nat.max min_val 1) max_val r.redrawRand
    else
      result

theorem randint_mem (a b x : Nat) (hab : a ≤ b) :
    a ≤ randint a b x ∧ randint a b x ≤ b := by
  unfold randint
  have hw : 0 < b + 1 - a := by omega
  have := Nat.mod_lt x hw
  omega

theorem randint_surjective (a b v : Nat) (ha : a ≤ v) (hb : v ≤ b) :
    randint a b (v - a) = v := by
  unfold randint
  have : v - a < b + 1 - a := by omega
  rw [Nat.mod_eq_of_lt this]
  omega

/-! ### Session statistics (`print_statistics`, lines 237–251)

`sorted(errors.items(), key=lambda x: x[1], reverse=True)[:5]`.  Python's
`sorted` is stable and `reverse=True` keeps equal-key elements in their
original (insertion) order; a stable insertion sort by descending count is the
same function. -/

def insertByCountDesc (x : Nat × Nat) : List (Nat × Nat) → List (Nat × Nat)
  | [] => [x]
  | y :: ys => if x.2 < y.2 then y :: insertByCountDesc x ys else x :: y :: ys

def sortByCountDesc : List (Nat × Nat) → List (Nat × Nat)
  | [] => []
  | x :: xs => insertByCountDesc x (sortByCountDesc xs)

/-- What one call of `print_statistics(total, first_try, errors)` displays. -/
structure StatisticsReport where
  total : Nat
  first_try : Nat
  top_errors : List (Nat × Nat)
deriving DecidableEq, Repr

def print_statistics (total first_try : Nat) (errors : Dict) : StatisticsReport :=
  ⟨total, first_try, (sortByCountDesc errors).take 5⟩

theorem mem_insertByCountDesc (x z : Nat × Nat) (l : List (Nat × Nat)) :
    z ∈ insertByCountDesc x l ↔ z = x ∨ z ∈ l := by
  induction l with
  | nil => simp [insertByCountDesc]
  | cons y ys ih =>
    rw [insertByCountDesc]
    by_cases h : x.2 < y.2
    · rw [if_pos h]
      simp only [List.mem_cons, ih]
      tauto
    · rw [if_neg h]
      simp only [List.mem_cons]

theorem pairwise_insertByCountDesc (x : Nat × Nat) (l : List (Nat × Nat))
    (hl : l.Pairwise (fun a b => b.2 ≤ a.2)) :
    (insertByCountDesc x l).Pairwise (fun a b => b.2 ≤ a.2) := by
  induction l with
  | nil => simp [insertByCountDesc]
  | cons y ys ih =>
    obtain ⟨hy, hys⟩ := List.pairwise_cons.mp hl
    by_cases h : x.2 < y.2
    · rw [insertByCountDesc, if_pos h]
      rw [List.pairwise_cons]
      constructor
      · intro z hz
        rcases (mem_insertByCountDesc x z ys).mp hz with hzx | hzy
        · rw [hzx]
          omega
        · exact hy z hzy
      · exact ih hys
    · rw [insertByCountDesc, if_neg h]
      rw [List.pairwise_cons]
      constructor
      · intro z hz
        rcases List.mem_cons.mp hz with hzy | hzys
        · rw [hzy]
          omega
        · have := hy z hzys
          omega
      · exact hl

theorem pairwise_sortByCountDesc (l : List (Nat × Nat)) :
    (sortByCountDesc l).Pairwise (fun a b => b.2 ≤ a.2) := by
  induction l with
  | nil => simp [sortByCountDesc]
  | cons x xs ih => exact pairwise_insertByCountDesc x (sortByCountDesc xs) ih

theorem perm_insertByCountDesc (x : Nat × Nat) (l : List (Nat × Nat)) :
    (insertByCountDesc x l).Perm (x :: l) := by
  induction l with
  | nil => simp [insertByCountDesc]
  | cons y ys ih =>
    by_cases h : x.2 < y.2
    · rw [insertByCountDesc, if_pos h]
      exact (ih.cons y).trans (List.Perm.swap x y ys)
    · rw [insertByCountDesc, if_neg h]

theorem perm_sortByCountDesc (l : List (Nat × Nat)) :
    (sortByCountDesc l).Perm l := by
  induction l with
  | nil => simp [sortByCountDesc]
  | cons x xs ih =>
    exact (perm_insertByCountDesc x (sortByCountDesc xs)).trans (List.Perm.cons x ih)

theorem filter_insertByCountDesc (x : Nat × Nat) (l : List (Nat × Nat)) (c : Nat)
    (hl : l.Pairwise (fun a b => b.2 ≤ a.2)) :
    (insertByCountDesc x l).filter (fun z => z.2 == c) =
      if x.2 = c then x :: l.filter (fun z => z.2 == c)
      else l.filter (fun z => z.2 == c) := by
  induction l with
  | nil =>
    by_cases h : x.2 = c <;> simp [insertByCountDesc, List.filter_cons, h]
  | cons y ys ih =>
    obtain ⟨hy, hys⟩ := List.pairwise_cons.mp hl
    by_cases h : x.2 < y.2
    · rw [insertByCountDesc, if_pos h]
      by_cases hx : x.2 = c
      · by_cases hyc : y.2 = c
        · omega
        · simp [List.filter_cons, hx, hyc, ih hys]
      · simp [List.filter_cons, hx, ih hys]
    · rw [insertByCountDesc, if_neg h]
      by_cases hx : x.2 = c <;> simp [List.filter_cons, hx]

/-- Stability of the statistics sort: within one count value, buckets keep
their dict insertion order. -/
theorem filter_sortByCountDesc (l : List (Nat × Nat)) (c : Nat) :
    (sortByCountDesc l).filter (fun z => z.2 == c) = l.filter (fun z => z.2 == c) := by
  induction l with
  | nil => simp [sortByCountDesc]
  | cons x xs ih =>
    rw [sortByCountDesc, filter_insertByCountDesc x _ c (pairwise_sortByCountDesc xs)]
    rw [List.filter_cons]
    by_cases hx : x.2 = c
    · have : (x.2 == c) = true := by simp [hx]
      rw [if_pos hx, this, if_pos rfl, ih]
    · have : (x.2 == c) = false := by simp [hx]
      rw [if_neg hx, this, ih]
      simp only [Bool.false_eq_true, if_false]

/-! ### The round loop (`main`, lines 304–376)

The interactive loop is embedded as a deterministic interpreter over script
data: each round has a target (in the real program drawn by
`generate_number_with_errors`), the text captured during the initial playback,
and the sequence of the user's prompt inputs after parsing — `q`/`quit`/
`exit`, `r`/`repeat` (with the text captured during the replay),
`s`/`show`, a parsed integer, or unparseable input.  The interpreter records
the state mutations of `main` and the prefill shown at every prompt.

A negative wrong guess is scored character-by-character starting from the
`-` sign, so `int(char)` raises `ValueError` before any bucket is touched;
the error dict is then left unchanged (but `is_first_try` was already set to
`False` on line 342). -/

inductive Cmd where
  | quit : Cmd
  | rep : String → Cmd
  | showAnswer : Cmd
  | guess : Int → Cmd
  | invalid : Cmd
deriving DecidableEq, Repr

structure GameState where
  total : Nat
  firstTry : Nat
  errors : Dict
deriving DecidableEq, Repr

structure RoundOutcome where
  state : GameState
  quit : Bool
  prefills : List String
deriving DecidableEq, Repr

/-- Models the prompt of line 315: `input_with_prefill` echoes the prefill and
returns it with the newly typed text appended. -/
def input_with_prefill (prefill additional : String) : String :=
  prefill ++ additional

def runRoundAux (target : Nat) :
    List Cmd → GameState → Bool → String → RoundOutcome
  | [], st, _, _ => ⟨st, false, []⟩
  | Cmd.quit :: _, st, _, pf => ⟨st, true, [pf]⟩
  | Cmd.rep cap :: cs, st, isFirstTry, pf =>
    let r := runRoundAux target cs st isFirstTry cap
    ⟨r.state, r.quit, pf :: r.prefills⟩
  | Cmd.showAnswer :: _, st, _, pf => ⟨st, false, [pf]⟩
  | Cmd.guess g :: cs, st, isFirstTry, pf =>
    if g = (target : Int) then
      let st2 := if isFirstTry then
          { st with firstTry := st.firstTry + 1,
                    errors := decrement_errors_for_number target st.errors }
        else st
      ⟨st2, false, [pf]⟩
    else
      let st2 := if g < 0 then st
        else { st with errors := (scoreWrongGuess g.toNat target st.errors).2 }
      let r := runRoundAux target cs st2 false ""
      ⟨r.state, r.quit, pf :: r.prefills⟩
  | Cmd.invalid :: cs, st, isFirstTry, pf =>
    let r := runRoundAux target cs st isFirstTry ""
    ⟨r.state, r.quit, pf :: r.prefills⟩

/-- One round of the inner `while True` loop, entered with a fresh
`is_first_try = True` and the initial playback capture as prefill. -/
def runRound (st : GameState) (target : Nat) (capture0 : String)
    (cmds : List Cmd) : RoundOutcome :=
  runRoundAux target cmds st true capture0

structure RoundScript where
  target : Nat
  capture0 : String
  cmds : List Cmd
deriving DecidableEq, Repr

structure SessionOutcome where
  state : GameState
  printed : Option StatisticsReport
deriving DecidableEq, Repr

/-- The outer `while True` loop: each round increments `total_numbers`; on
`quit` the program calls `print_statistics(total_numbers - 1,
first_try_correct, errors)` and returns. -/
def runSession : List RoundScript → GameState → SessionOutcome
  | [], st => ⟨st, none⟩
  | r :: rs, st =>
    let st1 : GameState := { st with total := st.total + 1 }
    let ro := runRound st1 r.target r.capture0 r.cmds
    if ro.quit then
      ⟨ro.state, some (print_statistics (ro.state.total - 1) ro.state.firstTry ro.state.errors)⟩
    else
      runSession rs ro.state

/-- Whether the inner loop, run on `cmds`, ends the session with `q`. -/
def roundQuits (target : Nat) : List Cmd → Bool
  | [] => false
  | Cmd.quit :: _ => true
  | Cmd.rep _ :: cs => roundQuits target cs
  | Cmd.showAnswer :: _ => false
  | Cmd.guess g :: cs => if g = (target : Int) then false else roundQuits target cs
  | Cmd.invalid :: cs => roundQuits target cs

/-- Whether the round is solved with no intervening wrong guess: the first
command that is not `repeat` or unparseable input is a correct guess. -/
def solvedFirstTry (target : Nat) : List Cmd → Bool
  | [] => false
  | Cmd.quit :: _ => false
  | Cmd.rep _ :: cs => solvedFirstTry target cs
  | Cmd.showAnswer :: _ => false
  | Cmd.guess g :: _ => g = (target : Int)
  | Cmd.invalid :: cs => solvedFirstTry target cs

theorem runRoundAux_total (target : Nat) (cmds : List Cmd) (st : GameState)
    (ft : Bool) (pf : String) :
    (runRoundAux target cmds st ft pf).state.total = st.total := by
  induction cmds generalizing st ft pf with
  | nil => rfl
  | cons c cs ih =>
    cases c with
    | quit => rfl
    | rep cap => exact ih st ft cap
    | showAnswer => rfl
    | guess g =>
      by_cases hg : g = (target : Int)
      · rw [runRoundAux, if_pos hg]
        by_cases hft : ft = true
        · subst hft
          simp
        · have : ft = false := by revert hft; cases ft <;> simp
          subst this
          simp
      · rw [runRoundAux, if_neg hg]
        dsimp only
        rw [ih _ false ""]
        by_cases hgz : g < 0 <;> simp [hgz]
    | invalid => exact ih st ft ""

theorem runRoundAux_firstTry (target : Nat) (cmds : List Cmd) (st : GameState)
    (ft : Bool) (pf : String) :
    (runRoundAux target cmds st ft pf).state.firstTry =
      st.firstTry + (if ft && solvedFirstTry target cmds then 1 else 0) := by
  induction cmds generalizing st ft pf with
  | nil => simp [runRoundAux, solvedFirstTry]
  | cons c cs ih =>
    cases c with
    | quit => simp [runRoundAux, solvedFirstTry]
    | rep cap =>
      rw [runRoundAux]
      exact ih st ft cap
    | showAnswer => simp [runRoundAux, solvedFirstTry]
    | guess g =>
      by_cases hg : g = (target : Int)
      · rw [runRoundAux, if_pos hg]
        have hs : solvedFirstTry target (Cmd.guess g :: cs) = true := by
          simp [solvedFirstTry, hg]
        rw [hs]
        cases ft <;> simp
      · rw [runRoundAux, if_neg hg]
        have hs : solvedFirstTry target (Cmd.guess g :: cs) = false := by
          simp [solvedFirstTry, hg]
        rw [hs]
        dsimp only
        rw [ih _ false ""]
        by_cases hgz : g < 0 <;> simp [hgz]
    | invalid =>
      rw [runRoundAux]
      rw [ih st ft ""]
      simp [solvedFirstTry]

theorem runRoundAux_quit (target : Nat) (cmds : List Cmd) (st : GameState)
    (ft : Bool) (pf : String) :
    (runRoundAux target cmds st ft pf).quit = roundQuits target cmds := by
  induction cmds generalizing st ft pf with
  | nil => rfl
  | cons c cs ih =>
    cases c with
    | quit => rfl
    | rep cap => exact ih st ft cap
    | showAnswer => rfl
    | guess g =>
      by_cases hg : g = (target : Int)
      · rw [runRoundAux, if_pos hg, roundQuits, if_pos hg]
      · rw [runRoundAux, if_neg hg, roundQuits, if_neg hg]
        exact ih _ false ""
    | invalid => exact ih st ft ""

theorem runRoundAux_prefills_head (target : Nat) (cmds : List Cmd) (st : GameState)
    (ft : Bool) (pf : String) (hne : cmds ≠ []) :
    (runRoundAux target cmds st ft pf).prefills.head? = some pf := by
  cases cmds with
  | nil => exact absurd rfl hne
  | cons c cs =>
    cases c with
    | quit => rfl
    | rep cap => rfl
    | showAnswer => rfl
    | guess g =>
      by_cases hg : g = (target : Int)
      · rw [runRoundAux, if_pos hg]
        rfl
      · rw [runRoundAux, if_neg hg]
        rfl
    | invalid => rfl

theorem runRoundAux_prefills_succ (target : Nat) (cmds : List Cmd) (st : GameState)
    (ft : Bool) (pf : String) (i : Nat)
    (hi : i + 1 < (runRoundAux target cmds st ft pf).prefills.length) :
    (runRoundAux target cmds st ft pf).prefills[i + 1]? =
      some (match cmds[i]? with
            | some (Cmd.rep cap) => cap
            | _ => "") := by
  induction cmds generalizing st ft pf i with
  | nil => simp [runRoundAux] at hi
  | cons c cs ih =>
    cases c with
    | quit => simp [runRoundAux] at hi
    | rep cap =>
      rw [runRoundAux] at hi ⊢
      simp only [List.length_cons] at hi
      cases i with
      | zero =>
        simp only [List.getElem?_cons_succ, List.getElem?_cons_zero]
        have hne : cs ≠ [] := by
          intro hc
          subst hc
          simp [runRoundAux] at hi
        have := runRoundAux_prefills_head target cs st ft cap hne
        rw [List.head?_eq_getElem?] at this
        exact this
      | succ j =>
        simp only [List.getElem?_cons_succ]
        exact ih st ft cap j (by omega)
    | showAnswer => simp [runRoundAux] at hi
    | guess g =>
      by_cases hg : g = (target : Int)
      · rw [runRoundAux, if_pos hg] at hi
        simp at hi
      · rw [runRoundAux, if_neg hg] at hi ⊢
        simp only [List.length_cons] at hi
        cases i with
        | zero =>
          simp only [List.getElem?_cons_succ, List.getElem?_cons_zero]
          have hne : cs ≠ [] := by
            intro hc
            subst hc
            simp [runRoundAux] at hi
          have := runRoundAux_prefills_head target cs
            (if g < 0 then st else
              { st with errors := (scoreWrongGuess g.toNat target st.errors).2 }) false "" hne
          rw [List.head?_eq_getElem?] at this
          exact this
        | succ j =>
          simp only [List.getElem?_cons_succ]
          exact ih _ false "" j (by omega)
    | invalid =>
      rw [runRoundAux] at hi ⊢
      simp only [List.length_cons] at hi
      cases i with
      | zero =>
        simp only [List.getElem?_cons_succ, List.getElem?_cons_zero]
        have hne : cs ≠ [] := by
          intro hc
          subst hc
          simp [runRoundAux] at hi
        have := runRoundAux_prefills_head target cs st ft "" hne
        rw [List.head?_eq_getElem?] at this
        exact this
      | succ j =>
        simp only [List.getElem?_cons_succ]
        exact ih st ft "" j (by omega)

theorem runSession_no_quit (rs : List RoundScript) (st : GameState)
    (h : ∀ r ∈ rs, roundQuits r.target r.cmds = false) :
    (runSession rs st).state.total = st.total + rs.length ∧
      (runSession rs st).printed = none := by
  induction rs generalizing st with
  | nil => simp [runSession]
  | cons r rest ih =>
    have hr : roundQuits r.target r.cmds = false := h r (List.mem_cons_self r rest)
    have hq : (runRound { st with total := st.total + 1 } r.target r.capture0 r.cmds).quit = false := by
      rw [runRound, runRoundAux_quit]
      exact hr
    rw [runSession]
    rw [if_neg (by simp [hq])]
    have hrest : ∀ x ∈ rest, roundQuits x.target x.cmds = false := by
      intro x hx
      exact h x (List.mem_cons_of_mem r hx)
    obtain ⟨h1, h2⟩ := ih _ hrest
    have htot : (runRound { st with total := st.total + 1 } r.target r.capture0 r.cmds).state.total
        = st.total + 1 := by
      rw [runRound, runRoundAux_total]
    refine ⟨?_, h2⟩
    rw [h1, htot]
    simp only [List.length_cons]
    omega

theorem runSession_quit_last (rs : List RoundScript) (q : RoundScript) (st : GameState)
    (hrs : ∀ r ∈ rs, roundQuits r.target r.cmds = false)
    (hq : roundQuits q.target q.cmds = true) :
    (runSession (rs ++ [q]) st).state.total = st.total + rs.length + 1 ∧
      (runSession (rs ++ [q]) st).printed =
        some (print_statistics (st.total + rs.length)
          (runSession (rs ++ [q]) st).state.firstTry
          (runSession (rs ++ [q]) st).state.errors) := by
  induction rs generalizing st with
  | nil =>
    simp only [List.nil_append, runSession]
    have hquit : (runRound { st with total := st.total + 1 } q.target q.capture0 q.cmds).quit = true := by
      rw [runRound, runRoundAux_quit]
      exact hq
    rw [if_pos (by simp [hquit])]
    have htot : (runRound { st with total := st.total + 1 } q.target q.capture0 q.cmds).state.total
        = st.total + 1 := by
      rw [runRound, runRoundAux_total]
    constructor
    · simpa using htot
    · simp only [htot]
      simp
  | cons r rest ih =>
    have hr : roundQuits r.target r.cmds = false := hrs r (List.mem_cons_self r rest)
    have hrest : ∀ x ∈ rest, roundQuits x.target x.cmds = false := by
      intro x hx
      exact hrs x (List.mem_cons_of_mem r hx)
    have hq2 : (runRound { st with total := st.total + 1 } r.target r.capture0 r.cmds).quit = false := by
      rw [runRound, runRoundAux_quit]
      exact hr
    simp only [List.cons_append, runSession]
    rw [if_neg (by simp [hq2])]
    simp only [List.append_eq]
    obtain ⟨h1, h2⟩ := ih (runRound { st with total := st.total + 1 } r.target r.capture0 r.cmds).state hrest
    have htot : (runRound { st with total := st.total + 1 } r.target r.capture0 r.cmds).state.total
        = st.total + 1 := by
      rw [runRound, runRoundAux_total]
    constructor
    · rw [h1, htot]
      simp only [List.length_cons]
      omega
    · rw [h2, htot]
      have harith : st.total + 1 + rest.length = st.total + (r :: rest).length := by
        simp only [List.length_cons]
        omega
      rw [harith]

/-! ### Terminal capture (`read_input_during_playback`, lines 34–65)

The function saves the termios settings, enters raw mode inside a `try`, polls
`select` in ≤0.1 s slices until the playback thread sets the completion event
— appending each available character, in arrival order, to the buffer — and
restores the saved settings in the `finally`.  The embedding keeps the
terminal settings as an abstract value threaded through a state-and-exception
semantics of `try/finally`; the polling loop is driven by an oracle list of
tick outcomes (`done` = completion event observed, `key c` = a character was
read, `idle` = the 0.1 s `select` timeout elapsed with no data, `raised` = the
read raised). -/

inductive Tick where
  | done : Tick
  | key : Char → Tick
  | idle : Tick
  | raised : Tick
deriving DecidableEq, Repr

/-- The `while not done_event.is_set()` polling loop; returns the captured
characters in arrival order, or an exception escaping the `try` block. -/
def captureLoop : List Tick → Except Unit (List Char)
  | [] => Except.ok []
  | Tick.done :: _ => Except.ok []
  | Tick.raised :: _ => Except.error ()
  | Tick.key c :: ts =>
    match captureLoop ts with
    | Except.ok cs => Except.ok (c :: cs)
    | Except.error e => Except.error e
  | Tick.idle :: ts => captureLoop ts

/-- Python `try body finally fin` over explicit terminal state: the body
produces a new state and a normal or exceptional outcome; the `finally`
transformation runs on either outcome, and the outcome is re-raised. -/
def tryFinallyTerm {α : Type} (body : Nat → Nat × Except Unit α)
    (fin : Nat → Nat) (t : Nat) : Nat × Except Unit α :=
  let r := body t
  (fin r.1, r.2)

/-- `read_input_during_playback`, restricted to its terminal-mode effect:
`old_settings = tcgetattr(fd)`; inside the `try`, `tty.setraw(fd)` replaces
the settings (with an arbitrary raw-mode value, parameter `raw`), then the
polling loop runs; the `finally` executes
`tcsetattr(fd, TCSADRAIN, old_settings)`. -/
def read_input_during_playback (raw : Nat → Nat) (ticks : List Tick)
    (t0 : Nat) : Nat × Except Unit String :=
  let old_settings := t0
  tryFinallyTerm
    (fun t =>
      let t1 := raw t
      (t1,
        match captureLoop ticks with
        | Except.ok cs => Except.ok (String.mk cs)
        | Except.error e => Except.error e))
    (fun _ => old_settings)
    t0

/-! ### Localization (`locales/__init__.py`)

`t(key, **kwargs)` looks the key up in the current language's message table
(falling back to the key itself), and — only when keyword arguments were
passed — calls `text.format(**kwargs)`, catching `KeyError` alone.

`str.format` is embedded for the fragment these templates use: literal text,
`\x7b\x7b`/`\x7d\x7d` escapes, and replacement fields.  A field's name is the
part before any `!conversion` or `:spec`; an empty or all-digit name is a
positional/auto-numbered field, which raises `IndexError` here because
`format` is never given positional arguments; an unknown keyword name raises
`KeyError`; a stray unmatched brace raises `ValueError`.  Conversions, format
specs and attribute/index access inside fields are not modelled (they are
applied as the identity); the well-formedness predicate below excludes them,
and every template in the shipped tables satisfies it. -/

namespace Locales

inductive PyErr where
  | keyError : PyErr
  | indexError : PyErr
  | valueError : PyErr
deriving DecidableEq, Repr

def fieldName (field : List Char) : List Char :=
  field.takeWhile (fun c => decide (c ≠ '!' ∧ c ≠ ':'))

def substField (args : List (String × String)) (field : List Char) :
    Except PyErr (List Char) :=
  let name := fieldName field
  if name.isEmpty || name.all Char.isDigit then Except.error PyErr.indexError
  else
    match List.lookup (String.mk name) args with
    | some v => Except.ok v.data
    | none => Except.error PyErr.keyError

/-- Plumbing: prepend a character to a successful format result, propagate an
exception. -/
def consOut (c : Char) : Except PyErr (List Char) → Except PyErr (List Char)
  | Except.ok out => Except.ok (c :: out)
  | Except.error e => Except.error e

/-- Plumbing: prepend a substituted value to a successful format result. -/
def appendOut (v : List Char) : Except PyErr (List Char) → Except PyErr (List Char)
  | Except.ok out => Except.ok (v ++ out)
  | Except.error e => Except.error e

/-- One left-to-right pass of `str.format`; the second argument is `none`
outside a replacement field and `some acc` inside one, `acc` holding the
field's characters so far in reverse. -/
def pyFormatAux (args : List (String × String)) :
    Option (List Char) → List Char → Except PyErr (List Char)
  | none, [] => Except.ok []
  | some _, [] => Except.error PyErr.valueError
  | none, c :: rest =>
    if c = '\x7b' then
      match rest with
      | [] => Except.error PyErr.valueError
      | c2 :: rest2 =>
        if c2 = '\x7b' then consOut '\x7b' (pyFormatAux args none rest2)
        else pyFormatAux args (some []) (c2 :: rest2)
    else if c = '\x7d' then
      match rest with
      | [] => Except.error PyErr.valueError
      | c2 :: rest2 =>
        if c2 = '\x7d' then consOut '\x7d' (pyFormatAux args none rest2)
        else Except.error PyErr.valueError
    else consOut c (pyFormatAux args none rest)
  | some acc, c :: rest =>
    if c = '\x7d' then
      match substField args acc.reverse with
      | Except.ok v => appendOut v (pyFormatAux args none rest)
      | Except.error e => Except.error e
    else if c = '\x7b' then Except.error PyErr.valueError
    else pyFormatAux args (some (c :: acc)) rest

/-- `text.format(**kwargs)`. -/
def pyFormat (text : String) (args : List (String × String)) : Except PyErr String :=
  match pyFormatAux args none text.data with
  | Except.ok out => Except.ok (String.mk out)
  | Except.error e => Except.error e

/-- A plain keyword field name: non-empty, not a positional index, and free of
the conversion/spec/attribute syntax the embedding does not model. -/
def isPlainName (name : List Char) : Bool :=
  !name.isEmpty && !name.all Char.isDigit &&
    name.all (fun c => decide (c ≠ '!' ∧ c ≠ ':' ∧ c ≠ '.' ∧ c ≠ '[' ∧ c ≠ '\x7b' ∧ c ≠ '\x7d'))

/-- Templates whose replacement fields are all plain keyword names; mirrors
the traversal of `pyFormatAux`. -/
def wfAux : Option (List Char) → List Char → Bool
  | none, [] => true
  | some _, [] => false
  | none, c :: rest =>
    if c = '\x7b' then
      match rest with
      | [] => false
      | c2 :: rest2 =>
        if c2 = '\x7b' then wfAux none rest2
        else wfAux (some []) (c2 :: rest2)
    else if c = '\x7d' then
      match rest with
      | [] => false
      | c2 :: rest2 => if c2 = '\x7d' then wfAux none rest2 else false
    else wfAux none rest
  | some acc, c :: rest =>
    if c = '\x7d' then isPlainName acc.reverse && wfAux none rest
    else if c = '\x7b' then false
    else wfAux (some (c :: acc)) rest

def wellFormedNamed (text : String) : Bool := wfAux none text.data

/-- `locales/en.py`. -/
def MESSAGES_EN : List (String × String) :=
  [("game_title", "Game: Guess the Number!"),
   ("game_description", "You will hear a number from 1 to 1999. Enter it."),
   ("goodbye", "Goodbye!"),
   ("controls_hint", "r - repeat, s - skip, q - quit"),
   ("enter_number", "Enter number: "),
   ("correct", "Correct! Next number..."),
   ("incorrect", "Incorrect: {highlighted}. Try again."),
   ("answer_shown", "Answer: {number}. Next number..."),
   ("enter_valid_number", "Please enter a number."),
   ("file_not_found", "File not found: {file}"),
   ("statistics_header", "STATISTICS"),
   ("total_numbers", "Total numbers: {count}"),
   ("first_try_correct", "Correct on first try: {count}"),
   ("top_errors_header", "Top 5 errors (by position):"),
   ("error_item", "  {index}. {value}: {count} time(s)")]

/-- `locales/ru.py`. -/
def MESSAGES_RU : List (String × String) :=
  [("game_title", "Игра: Угадай число!"),
   ("game_description", "Вы услышите число от 1 до 1999. Введите его."),
   ("goodbye", "До свидания!"),
   ("controls_hint", "r - repeat, s - skip, q - quit"),
   ("enter_number", "Введите число: "),
   ("correct", "Правильно! Следующее число..."),
   ("incorrect", "Неправильно: {highlighted}. Попробуйте ещё раз."),
   ("answer_shown", "Ответ: {number}. Следующее число..."),
   ("enter_valid_number", "Пожалуйста, введите число."),
   ("file_not_found", "Файл не найден: {file}"),
   ("statistics_header", "СТАТИСТИКА"),
   ("total_numbers", "Всего загадано: {count}"),
   ("first_try_correct", "Угадано с первой попытки: {count}"),
   ("top_errors_header", "Топ 5 ошибок (по позициям):"),
   ("error_item", "  {index}. {value}: {count} раз(а)")]

def LANGUAGES : List (String × List (String × String)) :=
  [("ru", MESSAGES_RU), ("en", MESSAGES_EN)]

def DEFAULT_LANGUAGE : String := "ru"

/-- `LANGUAGES.get(_current_language, LANGUAGES[DEFAULT_LANGUAGE])`. -/
def messagesFor (lang : String) : List (String × String) :=
  (List.lookup lang LANGUAGES).getD ((List.lookup DEFAULT_LANGUAGE LANGUAGES).getD [])

/-- `t(key, **kwargs)` with the current language made explicit.  The result is
`Except`: `Except.error` is an uncaught Python exception escaping `t`. -/
def t (lang key : String) (kwargs : List (String × String)) : Except PyErr String :=
  let messages := messagesFor lang
  let text := (List.lookup key messages).getD key
  if kwargs.isEmpty then Except.ok text
  else
    match pyFormat text kwargs with
    | Except.ok s => Except.ok s
    | Except.error PyErr.keyError => Except.ok text
    | Except.error e => Except.error e

example : t "en" "goodbye" [] = Except.ok "Goodbye!" := rfl
example : t "en" "missing_key" [] = Except.ok "missing_key" := rfl
example : t "en" "incorrect" [("highlighted", "19x5")] =
    Except.ok "Incorrect: 19x5. Try again." := rfl
example : t "en" "incorrect" [("wrong_arg", "5")] =
    Except.ok "Incorrect: {highlighted}. Try again." := rfl

theorem fieldName_of_plain (nm : List Char) (h : isPlainName nm = true) :
    fieldName nm = nm := by
  unfold isPlainName at h
  simp only [Bool.and_eq_true, List.all_eq_true] at h
  unfold fieldName
  rw [List.takeWhile_eq_self_iff]
  intro c hc
  have := h.2 c hc
  simp only [decide_eq_true_eq] at this ⊢
  tauto

theorem substField_of_plain (args : List (String × String)) (nm : List Char)
    (h : isPlainName nm = true) :
    (∃ out, substField args nm = Except.ok out) ∨
      substField args nm = Except.error PyErr.keyError := by
  have hfn : fieldName nm = nm := fieldName_of_plain nm h
  unfold isPlainName at h
  simp only [Bool.and_eq_true] at h
  obtain ⟨⟨hne, hnd⟩, _⟩ := h
  unfold substField
  rw [hfn]
  have hcond : (nm.isEmpty || nm.all Char.isDigit) = false := by
    simp only [Bool.not_eq_true'] at hne hnd
    simp [hne, hnd]
  simp only [hcond, Bool.false_eq_true, if_false]
  cases List.lookup (String.mk nm) args with
  | some v => exact Or.inl ⟨v.data, rfl⟩
  | none => exact Or.inr rfl

/-- On a template whose fields are all plain keyword names, `str.format`
either succeeds or raises `KeyError` — never `ValueError`/`IndexError`. -/
theorem pyFormatAux_wf (args : List (String × String)) :
    ∀ (st : Option (List Char)) (l : List Char), wfAux st l = true →
      (∃ out, pyFormatAux args st l = Except.ok out) ∨
        pyFormatAux args st l = Except.error PyErr.keyError := by
  intro st l
  induction st, l using wfAux.induct with
  | case1 =>
    intro _
    exact Or.inl ⟨[], rfl⟩
  | case2 val =>
    intro hwf
    have hf : (false : Bool) = true := hwf
    simp at hf
  | case3 =>
    intro hwf
    have hf : (false : Bool) = true := hwf
    simp at hf
  | case4 rest2 ih =>
    intro hwf
    have hwf2 : wfAux none rest2 = true := hwf
    rcases ih hwf2 with ⟨out, hout⟩ | herr
    · refine Or.inl ⟨'\x7b' :: out, ?_⟩
      show consOut '\x7b' (pyFormatAux args none rest2) = Except.ok ('\x7b' :: out)
      rw [hout]
      rfl
    · refine Or.inr ?_
      show consOut '\x7b' (pyFormatAux args none rest2) = Except.error PyErr.keyError
      rw [herr]
      rfl
  | case5 c2 rest2 hne ih =>
    intro hwf
    have hwf1 : (if c2 = '\x7b' then wfAux none rest2
        else wfAux (some []) (c2 :: rest2)) = true := hwf
    rw [if_neg hne] at hwf1
    have hgoal : pyFormatAux args none ('\x7b' :: c2 :: rest2) =
        pyFormatAux args (some []) (c2 :: rest2) := by
      show (if c2 = '\x7b' then consOut '\x7b' (pyFormatAux args none rest2)
            else pyFormatAux args (some []) (c2 :: rest2)) =
          pyFormatAux args (some []) (c2 :: rest2)
      rw [if_neg hne]
    rw [hgoal]
    exact ih hwf1
  | case6 =>
    intro hwf
    have hf : (false : Bool) = true := hwf
    simp at hf
  | case7 rest2 h ih =>
    intro hwf
    have hwf2 : wfAux none rest2 = true := hwf
    rcases ih hwf2 with ⟨out, hout⟩ | herr
    · refine Or.inl ⟨'\x7d' :: out, ?_⟩
      show consOut '\x7d' (pyFormatAux args none rest2) = Except.ok ('\x7d' :: out)
      rw [hout]
      rfl
    · refine Or.inr ?_
      show consOut '\x7d' (pyFormatAux args none rest2) = Except.error PyErr.keyError
      rw [herr]
      rfl
  | case8 c2 rest2 h hne =>
    intro hwf
    have hwf1 : (if c2 = '\x7d' then wfAux none rest2 else false) = true := hwf
    rw [if_neg h] at hwf1
    simp at hwf1
  | case9 c rest h1 h2 ih =>
    intro hwf
    rw [wfAux.eq_def] at hwf
    dsimp only at hwf
    rw [if_neg h1, if_neg h2] at hwf
    rw [pyFormatAux.eq_def]
    dsimp only
    rw [if_neg h1, if_neg h2]
    rcases ih hwf with ⟨out, hout⟩ | herr
    · refine Or.inl ⟨c :: out, ?_⟩
      rw [hout]
      rfl
    · refine Or.inr ?_
      rw [herr]
      rfl
  | case10 acc rest ih =>
    intro hwf
    have hwf2 : (isPlainName acc.reverse && wfAux none rest) = true := hwf
    rw [Bool.and_eq_true] at hwf2
    obtain ⟨hpl, hrest⟩ := hwf2
    rw [pyFormatAux.eq_def]
    dsimp only
    rw [if_pos rfl]
    rcases substField_of_plain args acc.reverse hpl with ⟨v, hv⟩ | hkerr
    · rw [hv]
      rcases ih hrest with ⟨out, hout⟩ | herr
      · refine Or.inl ⟨v ++ out, ?_⟩
        show appendOut v (pyFormatAux args none rest) = Except.ok (v ++ out)
        rw [hout]
        rfl
      · refine Or.inr ?_
        show appendOut v (pyFormatAux args none rest) = Except.error PyErr.keyError
        rw [herr]
        rfl
    · rw [hkerr]
      exact Or.inr rfl
  | case11 acc rest =>
    intro hwf
    have hf : (false : Bool) = true := hwf
    simp at hf
  | case12 acc c rest h1 h2 ih =>
    intro hwf
    rw [wfAux.eq_def] at hwf
    dsimp only at hwf
    rw [if_neg h1, if_neg h2] at hwf
    rw [pyFormatAux.eq_def]
    dsimp only
    rw [if_neg h1, if_neg h2]
    exact ih hwf

end Locales

deriving instance DecidableEq for Except

/-! ## The claims -/

/-- Claim C1: for every wrong guess scored against a target, each guess digit
position (from least significant upward) whose digit differs from the
target's digit at that position is marked as mismatched in the highlighted
output, and the target's digit value at that place (`target digit * 10 ^
position`) is added to the error bucket map if and only if it is non-zero;
in particular, for guess 1847 and target 1965, exactly the buckets 900, 60
and 5 each gain one count and positions 0, 1, 2 are marked mismatched while
position 3 is not.  (The highlight list is in display order, most significant
guess digit first, so position `p` sits at index `numDigits guess - 1 - p`;
the bucket-count conjunct counts, for each key, the mismatched guess
positions whose non-zero target digit value equals that key.) -/
theorem claim_C1 :
    (∀ guess target errors p, p < numDigits guess →
      ((scoreWrongGuess guess target errors).1.getD (numDigits guess - 1 - p) false = true ↔
        digitAt guess p ≠ digitAt target p)) ∧
    (∀ guess target errors k, 0 < k →
      getCount (scoreWrongGuess guess target errors).2 k =
        getCount errors k +
          ((List.range (numDigits guess)).filter (fun p =>
            decide (digitAt guess p ≠ digitAt target p) &&
              decide (digitAt target p * 10 ^ p = k))).length) ∧
    (∀ guess target errors,
      getCount (scoreWrongGuess guess target errors).2 0 = getCount errors 0) ∧
    scoreWrongGuess 1847 1965 [] = ([false, true, true, true], [(900, 1), (60, 1), (5, 1)]) := by
  refine ⟨?_, ?_, ?_, by decide⟩
  · intro guess target errors p hp
    unfold scoreWrongGuess
    rw [scoreLoop_fst]
    rw [List.getD_eq_getElem?_getD]
    rw [List.getElem?_map]
    rw [List.getElem?_reverse (by simp; omega)]
    have harith : (List.range (numDigits guess)).length - 1 -
        (numDigits guess - 1 - p) = p := by
      simp
      omega
    rw [harith]
    rw [List.getElem?_range hp]
    simp
  · intro guess target errors k hk
    unfold scoreWrongGuess
    rw [scoreLoop_count guess target _ errors k hk]
    rw [List.filter_reverse, List.length_reverse]
  · intro guess target errors
    unfold scoreWrongGuess
    exact scoreLoop_count_zero guess target _ errors

/-- Witness for C1 at the concrete inputs of the claim. -/
theorem claim_C1_witness :
    ((scoreWrongGuess 1847 1965 []).1.getD (numDigits 1847 - 1 - 2) false = true ↔
      digitAt 1847 2 ≠ digitAt 1965 2) ∧
    getCount (scoreWrongGuess 1847 1965 []).2 900 =
      getCount [] 900 +
        ((List.range (numDigits 1847)).filter (fun p =>
          decide (digitAt 1847 p ≠ digitAt 1965 p) &&
            decide (digitAt 1965 p * 10 ^ p = 900))).length :=
  ⟨claim_C1.1 1847 1965 [] 2 (by decide), claim_C1.2.1 1847 1965 [] 900 (by decide)⟩

/-- Claim C2: for every integer `n` in `[1, 1999]` resolved without an
exact-match clip, the place-value components returned by decomposition (both
the clip resolver's integer file values and `get_number_components`) sum to
exactly `n`, and no returned component is 0. -/
theorem claim_C2 (n : Nat) (h1 : 1 ≤ n) (h2 : n ≤ 1999) :
    (get_audio_files_for_number n false).sum = n ∧
    0 ∉ get_audio_files_for_number n false ∧
    (get_number_components n).sum = n ∧
    0 ∉ get_number_components n := by
  obtain ⟨hsum, hzero, heq, hnd, hteen⟩ := decompositionFacts_all n (by omega)
  rw [heq]
  exact ⟨hsum, hzero, hsum, hzero⟩

/-- Witness for C2 at `n = 1234`. -/
theorem claim_C2_witness :
    (get_audio_files_for_number 1234 false).sum = 1234 ∧
    0 ∉ get_audio_files_for_number 1234 false ∧
    (get_number_components 1234).sum = 1234 ∧
    0 ∉ get_number_components 1234 :=
  claim_C2 1234 (by decide) (by decide)

/-- Claim C3: for every `n` in `[11, 19]`, decomposition (both the clip
resolver without an exact-match clip and the component splitter) yields the
single component `[n]`, never the pair `[10, n - 10]`; and the teen remainder
of any larger number in range stays one indivisible trailing component
(e.g. 115 yields `[100, 15]`). -/
theorem claim_C3 :
    (∀ n, 11 ≤ n → n ≤ 19 →
      get_number_components n = [n] ∧ get_audio_files_for_number n false = [n]) ∧
    (∀ n, n ≤ 1999 → 11 ≤ n % 100 → n % 100 ≤ 19 →
      get_number_components n = get_number_components (n - n % 100) ++ [n % 100]) ∧
    get_number_components 115 = [100, 15] := by
  refine ⟨?_, ?_, by decide⟩
  · intro n ha hb
    obtain ⟨_, _, heq, _, hteen⟩ := decompositionFacts_all n (by omega)
    have hmod : n % 100 = n := Nat.mod_eq_of_lt (by omega)
    have hsplit := hteen (by omega) (by omega)
    rw [hmod, Nat.sub_self] at hsplit
    have h0 : get_number_components 0 = [] := by decide
    rw [h0, List.nil_append] at hsplit
    exact ⟨hsplit, by rw [heq, hsplit]⟩
  · intro n hn ha hb
    obtain ⟨_, _, _, _, hteen⟩ := decompositionFacts_all n (by omega)
    exact hteen ha hb

/-- Witness for C3 at `n = 15` and `n = 1915`. -/
theorem claim_C3_witness :
    (get_number_components 15 = [15] ∧ get_audio_files_for_number 15 false = [15]) ∧
    get_number_components 1915 = get_number_components (1915 - 1915 % 100) ++ [1915 % 100] :=
  ⟨claim_C3.1 15 (by decide) (by decide),
   claim_C3.2.1 1915 (by decide) (by decide) (by decide)⟩

/-- Claim C10: for every integer `n` in `[0, 1999]`, when no exact-match clip
file for `n` exists, the sequence of integer values named by the files
returned by the clip resolver (which has no explicit teen branch) equals the
component sequence returned by the component splitter (which has an explicit
11–19 branch): the two decomposition routines are extensionally equal. -/
theorem claim_C10 (n : Nat) (hn : n ≤ 1999) :
    get_audio_files_for_number n false = get_number_components n :=
  (decompositionFacts_all n (by omega)).2.2.1

/-- Witness for C10 at `n = 115` (a teen remainder, the interesting case). -/
theorem claim_C10_witness :
    get_audio_files_for_number 115 false = get_number_components 115 :=
  claim_C10 115 (by decide)

/-- Claim C5: after a round's target `n` (in the playable range) is guessed
correctly on the first attempt, each error bucket keyed by a component of
`n`'s place-value decomposition decreases by exactly 1 and never drops below
0 (truncated subtraction); buckets not corresponding to components of `n`
are unchanged. -/
theorem claim_C5 (st : GameState) (target : Nat) (htgt : target ≤ 1999)
    (capture0 : String) (k : Nat) :
    getCount (runRound st target capture0 [Cmd.guess (target : Int)]).state.errors k =
      if k ∈ get_number_components target then getCount st.errors k - 1
      else getCount st.errors k := by
  have hnd : (get_number_components target).Nodup :=
    (decompositionFacts_all target (by omega)).2.2.2.1
  have hrr : (runRound st target capture0 [Cmd.guess (target : Int)]).state.errors =
      decrement_errors_for_number target st.errors := by
    rw [runRound, runRoundAux, if_pos rfl]
    rfl
  rw [hrr]
  unfold decrement_errors_for_number
  exact getCount_foldl_decStep (get_number_components target) st.errors k hnd

/-- Witness for C5: target 1015 (components 1000 and 15) against a bucket map
holding 1000 twice, 15 once and 7 three times. -/
theorem claim_C5_witness :
    getCount (runRound ⟨0, 0, [(1000, 2), (15, 1), (7, 3)]⟩ 1015 ""
        [Cmd.guess (1015 : Int)]).state.errors 1000 =
      if 1000 ∈ get_number_components 1015
      then getCount [(1000, 2), (15, 1), (7, 3)] 1000 - 1
      else getCount [(1000, 2), (15, 1), (7, 3)] 1000 :=
  claim_C5 ⟨0, 0, [(1000, 2), (15, 1), (7, 3)]⟩ 1015 (by decide) "" 1000

/-- A fixed oracle of draws, used to instantiate generator theorems. -/
def r0 : RandomDraws :=
  ⟨false, false, 0, false, 0, false, 0, false, 0, false, 0, false, 0, false, 0, false, 0, 0, 0⟩

theorem generate_range (errors : Dict) (min_val max_val : Nat) (r : RandomDraws)
    (h : min_val < max_val) :
    min_val ≤ generate_number_with_errors errors min_val max_val r ∧
      generate_number_with_errors errors min_val max_val r ≤ max_val := by
  simp only [generate_number_with_errors]
  by_cases hpe : (positiveErrorKeys errors).isEmpty
  · rw [if_pos hpe]
    have hm : Nat.max min_val 0 = min_val := Nat.max_eq_left (Nat.zero_le _)
    have := randint_mem (Nat.max min_val 0) max_val r.emptyRand (by omega)
    omega
  · rw [if_neg hpe]
    by_cases hc : composeFromErrors (positiveErrorKeys errors) r = 0 ∨
        composeFromErrors (positiveErrorKeys errors) r < min_val ∨
        composeFromErrors (positiveErrorKeys errors) r > max_val
    · rw [if_pos hc]
      have hm1 : min_val ≤ Nat.max min_val 1 := Nat.le_max_left _ _
      have hm2 : Nat.max min_val 1 ≤ max_val := by
        rw [Nat.max_le]
        omega
      have := randint_mem (Nat.max min_val 1) max_val r.redrawRand (by omega)
      omega
    · rw [if_neg hc]
      omega

/-- Claim C4: for every error bucket map and every configured range with
`0 ≤ min < max ≤ 1999`, the adaptive generator returns `n` with
`min ≤ n ≤ max` for every outcome of the random draws; when no bucket has a
positive count it draws uniformly from `[max(min,0), max]` (a single
`randint` whose clamped oracle reaches every value of that interval); and
whenever the weighted composition yields 0 or a value outside `[min, max]`,
it discards it and redraws uniformly from `[max(min,1), max]`. -/
theorem claim_C4 (errors : Dict) (min_val max_val : Nat) (r : RandomDraws)
    (hlt : min_val < max_val) (hmax : max_val ≤ 1999) :
    (min_val ≤ generate_number_with_errors errors min_val max_val r ∧
      generate_number_with_errors errors min_val max_val r ≤ max_val) ∧
    ((positiveErrorKeys errors).isEmpty = true →
      generate_number_with_errors errors min_val max_val r =
        randint (Nat.max min_val 0) max_val r.emptyRand) ∧
    (∀ v, Nat.max min_val 0 ≤ v → v ≤ max_val →
      randint (Nat.max min_val 0) max_val (v - Nat.max min_val 0) = v) ∧
    (¬(positiveErrorKeys errors).isEmpty = true →
      ((composeFromErrors (positiveErrorKeys errors) r = 0 ∨
          composeFromErrors (positiveErrorKeys errors) r < min_val ∨
          composeFromErrors (positiveErrorKeys errors) r > max_val) →
        generate_number_with_errors errors min_val max_val r =
          randint (Nat.max min_val 1) max_val r.redrawRand) ∧
      (¬(composeFromErrors (positiveErrorKeys errors) r = 0 ∨
          composeFromErrors (positiveErrorKeys errors) r < min_val ∨
          composeFromErrors (positiveErrorKeys errors) r > max_val) →
        generate_number_with_errors errors min_val max_val r =
          composeFromErrors (positiveErrorKeys errors) r)) ∧
    (∀ v, Nat.max min_val 1 ≤ v → v ≤ max_val →
      randint (Nat.max min_val 1) max_val (v - Nat.max min_val 1) = v) := by
  refine ⟨generate_range errors min_val max_val r hlt, ?_, ?_, ?_, ?_⟩
  · intro hpe
    simp only [generate_number_with_errors]
    rw [if_pos hpe]
  · intro v hv1 hv2
    exact randint_surjective _ _ _ hv1 hv2
  · intro hpe
    constructor
    · intro hc
      simp only [generate_number_with_errors]
      rw [if_neg hpe, if_pos hc]
    · intro hc
      simp only [generate_number_with_errors]
      rw [if_neg hpe, if_neg hc]
  · intro v hv1 hv2
    exact randint_surjective _ _ _ hv1 hv2

/-- Witness for C4: empty bucket map, range `[0, 10]`, a fixed oracle. -/
theorem claim_C4_witness :
    0 ≤ generate_number_with_errors [] 0 10 r0 ∧
      generate_number_with_errors [] 0 10 r0 ≤ 10 :=
  (claim_C4 [] 0 10 r0 (by decide) (by decide)).1

/-- Claim C6: a prefill buffer returned by one playback/capture cycle is
applied to exactly one subsequent prompt (its text prepended before the
user's new input) and is empty for all following prompts in the same round
until another playback/capture cycle (a `repeat`) produces a new one: the
first prompt of a round shows the initial capture, and prompt `i + 1` shows
the capture of command `i` when that command was `repeat`, otherwise the
empty string. -/
theorem claim_C6 (st : GameState) (target : Nat) (capture0 : String) (cmds : List Cmd) :
    (∀ p a, input_with_prefill p a = p ++ a) ∧
    ((runRound st target capture0 cmds).prefills ≠ [] →
      (runRound st target capture0 cmds).prefills.head? = some capture0) ∧
    (∀ i, i + 1 < (runRound st target capture0 cmds).prefills.length →
      (runRound st target capture0 cmds).prefills[i + 1]? =
        some (match cmds[i]? with
              | some (Cmd.rep cap) => cap
              | _ => "")) := by
  refine ⟨fun p a => rfl, ?_, ?_⟩
  · intro hne
    apply runRoundAux_prefills_head
    intro hc
    subst hc
    exact hne rfl
  · intro i hi
    exact runRoundAux_prefills_succ target cmds st true capture0 i hi

/-- Witness for C6: one repeat then a wrong and a correct guess; prompt 1
shows the repeat's capture, prompt 2 shows the empty string. -/
theorem claim_C6_witness :
    (runRound ⟨0, 0, []⟩ 7 "12"
        [Cmd.rep "34", Cmd.guess (3 : Int), Cmd.guess (7 : Int)]).prefills[1]? =
      some (match ([Cmd.rep "34", Cmd.guess (3 : Int), Cmd.guess (7 : Int)])[0]? with
            | some (Cmd.rep cap) => cap
            | _ => "") ∧
    (runRound ⟨0, 0, []⟩ 7 "12"
        [Cmd.rep "34", Cmd.guess (3 : Int), Cmd.guess (7 : Int)]).prefills[2]? =
      some (match ([Cmd.rep "34", Cmd.guess (3 : Int), Cmd.guess (7 : Int)])[1]? with
            | some (Cmd.rep cap) => cap
            | _ => "") :=
  ⟨(claim_C6 ⟨0, 0, []⟩ 7 "12" _).2.2 0 (by decide),
   (claim_C6 ⟨0, 0, []⟩ 7 "12" _).2.2 1 (by decide)⟩

/-- Claim C7: for every call to the capture routine that successfully saves
the terminal settings, the terminal input mode equals its pre-call state when
the routine exits, on every exit path — normal completion and any exception
raised after raw mode was entered (the polling loop's outcome, success or
exception, is propagated unchanged while the `finally` restores the saved
settings). -/
theorem claim_C7 (raw : Nat → Nat) (ticks : List Tick) (t0 : Nat) :
    (read_input_during_playback raw ticks t0).1 = t0 ∧
    ((read_input_during_playback raw ticks t0).2 = Except.error () ↔
      captureLoop ticks = Except.error ()) := by
  constructor
  · rfl
  · simp only [read_input_during_playback, tryFinallyTerm]
    cases hcl : captureLoop ticks with
    | ok cs => simp
    | error e =>
      cases e
      simp

/-- Witness for C7: a session where a key arrives, then the read raises. -/
theorem claim_C7_witness :
    (read_input_during_playback (fun s => s + 1)
        [Tick.key 'a', Tick.raised] 55).1 = 55 ∧
    (read_input_during_playback (fun s => s + 1)
        [Tick.key 'a', Tick.raised] 55).2 = Except.error () := by
  have h := claim_C7 (fun s => s + 1) [Tick.key 'a', Tick.raised] 55
  exact ⟨h.1, h.2.mpr rfl⟩

/-- Counterexample to claim C8 as stated: an absent key that itself contains
a well-formed replacement field is formatted rather than returned verbatim
(`t("\x7bx\x7d", x="5")` returns `"5"`, not the key), and a key holding a
lone unmatched brace makes `str.format` raise `ValueError`, which the
`except KeyError` handler does not catch, so the lookup raises. -/
theorem claim_C8_counterexample :
    Locales.t "en" "\x7bx\x7d" [("x", "5")] = Except.ok "5" ∧
    "5" ≠ "\x7bx\x7d" ∧
    Locales.t "en" "\x7b" [("x", "1")] = Except.error Locales.PyErr.valueError :=
  ⟨rfl, by decide, rfl⟩

/-- Claim C8 (amended): the localization lookup never raises when called
without format arguments — an absent key then degrades to the key string
itself; with format arguments it never raises provided the text being
formatted (the table entry, or the key itself when absent) contains only
well-formed named placeholders, and a table template whose named placeholders
cannot all be resolved from the given arguments is returned untranslated and
unchanged; every template shipped in the message tables is well-formed.  (An
absent key containing resolvable placeholders is formatted rather than
returned verbatim, and malformed or positional fields raise — see the
counterexample.) -/
theorem claim_C8_amended :
    (∀ lang key, Locales.t lang key [] =
      Except.ok ((List.lookup key (Locales.messagesFor lang)).getD key)) ∧
    (∀ lang key kwargs,
      Locales.wellFormedNamed ((List.lookup key (Locales.messagesFor lang)).getD key) = true →
      ∃ s, Locales.t lang key kwargs = Except.ok s) ∧
    (∀ lang key kwargs text, List.lookup key (Locales.messagesFor lang) = some text →
      Locales.pyFormat text kwargs = Except.error Locales.PyErr.keyError →
      Locales.t lang key kwargs = Except.ok text) ∧
    Locales.LANGUAGES.all (fun p => p.2.all (fun kv => Locales.wellFormedNamed kv.2)) = true := by
  refine ⟨?_, ?_, ?_, by decide⟩
  · intro lang key
    rfl
  · intro lang key kwargs hwf
    simp only [Locales.t]
    by_cases hkw : kwargs.isEmpty
    · rw [if_pos hkw]
      exact ⟨_, rfl⟩
    · rw [if_neg hkw]
      rcases Locales.pyFormatAux_wf kwargs none
          ((List.lookup key (Locales.messagesFor lang)).getD key).data hwf with
        ⟨out, hout⟩ | herr
      · refine ⟨String.mk out, ?_⟩
        simp only [Locales.pyFormat, hout]
      · refine ⟨(List.lookup key (Locales.messagesFor lang)).getD key, ?_⟩
        simp only [Locales.pyFormat, herr]
  · intro lang key kwargs text hlook hfmt
    simp only [Locales.t, hlook, Option.getD_some]
    by_cases hkw : kwargs.isEmpty
    · rw [if_pos hkw]
    · rw [if_neg hkw, hfmt]

/-- Witness for C8 (amended): the English `incorrect` template with an
argument set that does not resolve `highlighted` is returned untranslated. -/
theorem claim_C8_witness :
    Locales.t "en" "incorrect" [("oops", "1")] =
      Except.ok "Incorrect: {highlighted}. Try again." :=
  claim_C8_amended.2.2.1 "en" "incorrect" [("oops", "1")]
    "Incorrect: {highlighted}. Try again." rfl rfl

/-- Counterexample to claim C9 as stated: in a session whose single round is
quit immediately, `total_numbers` was incremented once (one round started),
but the printed statistics report `total_numbers - 1 = 0`, not the
incremented total. -/
theorem claim_C9_counterexample :
    (runSession [⟨7, "", [Cmd.quit]⟩] ⟨0, 0, []⟩).state.total = 1 ∧
    (runSession [⟨7, "", [Cmd.quit]⟩] ⟨0, 0, []⟩).printed = some ⟨0, 0, []⟩ ∧
    (runSession [⟨7, "", [Cmd.quit]⟩] ⟨0, 0, []⟩).printed ≠
      some (print_statistics (runSession [⟨7, "", [Cmd.quit]⟩] ⟨0, 0, []⟩).state.total 0 []) := by
  refine ⟨rfl, rfl, by decide⟩

/-- Claim C9 (amended): session statistics increment `total` exactly once per
round started and `first_try_correct` exactly once per round solved without
an intervening wrong guess; on normal quit the printed statistics report
`first_try_correct` and the started-rounds total *minus one* (excluding the
round in which quit was typed), listing the top 5 error buckets by count in
descending order with ties broken by insertion order (the displayed list is
the 5-prefix of a permutation of the bucket map that is sorted by descending
count and preserves, within each count value, the original order). -/
theorem claim_C9_amended :
    (∀ rs st, (∀ r ∈ rs, roundQuits r.target r.cmds = false) →
      (runSession rs st).state.total = st.total + rs.length ∧
        (runSession rs st).printed = none) ∧
    (∀ st target capture0 cmds,
      (runRound st target capture0 cmds).state.firstTry =
        st.firstTry + (if solvedFirstTry target cmds then 1 else 0)) ∧
    (∀ rs q st, (∀ r ∈ rs, roundQuits r.target r.cmds = false) →
      roundQuits q.target q.cmds = true →
      (runSession (rs ++ [q]) st).state.total = st.total + rs.length + 1 ∧
        (runSession (rs ++ [q]) st).printed =
          some (print_statistics (st.total + rs.length)
            (runSession (rs ++ [q]) st).state.firstTry
            (runSession (rs ++ [q]) st).state.errors)) ∧
    (∀ total first_try errors, print_statistics total first_try errors =
      ⟨total, first_try, (sortByCountDesc errors).take 5⟩) ∧
    (∀ l, (sortByCountDesc l).Pairwise (fun a b => b.2 ≤ a.2)) ∧
    (∀ l, (sortByCountDesc l).Perm l) ∧
    (∀ l c, (sortByCountDesc l).filter (fun z => z.2 == c) =
      l.filter (fun z => z.2 == c)) := by
  refine ⟨runSession_no_quit, ?_, runSession_quit_last, fun _ _ _ => rfl,
    pairwise_sortByCountDesc, perm_sortByCountDesc, filter_sortByCountDesc⟩
  intro st target capture0 cmds
  rw [runRound, runRoundAux_firstTry]
  simp

/-- Witness for C9 (amended): a one-round session solved first try — total
rises by one and nothing is printed. -/
theorem claim_C9_witness :
    (runSession [⟨5, "", [Cmd.guess (5 : Int)]⟩] ⟨0, 0, []⟩).state.total =
      (⟨0, 0, []⟩ : GameState).total + [(⟨5, "", [Cmd.guess (5 : Int)]⟩ : RoundScript)].length ∧
    (runSession [⟨5, "", [Cmd.guess (5 : Int)]⟩] ⟨0, 0, []⟩).printed = none :=
  claim_C9_amended.1 [⟨5, "", [Cmd.guess (5 : Int)]⟩] ⟨0, 0, []⟩ (by decide)

end NumberGame